import Mathlib

/-!
Shallow embedding of `corobus.cpp`: a cooperative in-process message bus of
bounded FIFO channels.  Wait queues hold opaque coroutine identifiers; the
coroutine runtime itself (suspend/wakeup) is external, so the non-blocking
operations additionally return the trace of wakeup calls they perform, and
one iteration of each blocking retry loop is modelled as a step function
whose outcome says whether the loop returns, suspends, or retries.
-/

namespace Corobus

/-- Error codes of the bus, mirroring `enum coro_bus_error_code`. -/
inductive CoroBusError where
  | errNone
  | errNoChannel
  | errWouldBlock

deriving instance DecidableEq for CoroBusError

open CoroBusError

/-- One bus channel, mirroring `struct coro_bus_channel`.  The wait queues
hold coroutine identifiers in FIFO order; the ring buffer is a list of
`size_limit` words. -/
structure Channel where
  size_limit : Nat
  send_queue : List Nat
  recv_queue : List Nat
  data : List Nat
  head : Nat
  size : Nat

deriving instance DecidableEq for Channel

/-- The bus, mirroring `struct coro_bus`: a slot array where a used slot owns
a channel and a free slot holds nothing.  `channel_count` is the list
length. -/
structure Bus where
  channels : List (Option Channel)

deriving instance DecidableEq for Bus

/-- Wakeup calls performed by the non-blocking operations; the argument is
the descriptor whose queue `wakeup_queue_wakeup_first` is called on. -/
inductive Event where
  | wakeFirstSend (desc : Nat)
  | wakeFirstRecv (desc : Nat)

deriving instance DecidableEq for Event

/-- Steps performed by `coro_bus_channel_close`, listed in execution order:
each waiter is detached and woken by `wakeup_queue_wakeup_all`, the slot is
cleared, the ring buffer is freed, the channel object is freed. -/
inductive CloseEvent where
  | wakeSendWaiter (coro : Nat)
  | wakeRecvWaiter (coro : Nat)
  | detachSlot
  | freeBuffer
  | freeChannel

deriving instance DecidableEq for CloseEvent

/-- Slot read: the channel at index `i`, or nothing when the slot is out of
range or free. -/
def Bus.getCh (bus : Bus) (i : Nat) : Option Channel :=
  bus.channels.getD i none

/-- Combined descriptor check used by every operation of the source:
`channel < 0 || channel >= bus->channel_count || bus->channels[channel] == NULL`. -/
def Bus.lookup (bus : Bus) (channel : Int) : Option Channel :=
  if channel < 0 ∨ (bus.channels.length : Int) ≤ channel then none
  else bus.getCh channel.toNat

/-- Slot write. -/
def Bus.setCh (bus : Bus) (i : Nat) (c : Option Channel) : Bus :=
  ⟨bus.channels.set i c⟩

/-- Mirrors `channel_init`: a ring of `size_limit` words, zero head and size,
both wait queues empty. -/
def channel_init (size_limit : Nat) : Channel :=
  { size_limit := size_limit
    send_queue := []
    recv_queue := []
    data := List.replicate size_limit 0
    head := 0
    size := 0 }

/-- The reuse scan of `coro_bus_channel_open`: index of the first free slot. -/
def openScan : List (Option Channel) → Option Nat
  | [] => none
  | none :: _ => some 0
  | some _ :: rest => (openScan rest).map (· + 1)

/-- Mirrors `coro_bus_channel_open`: reuse the lowest free slot, else grow
the slot array by one (allocation always succeeds in the model).  Returns
the descriptor, the new bus and the error code written. -/
def coro_bus_channel_open (bus : Bus) (size_limit : Nat) : Int × Bus × CoroBusError :=
  match openScan bus.channels with
  | some i => ((i : Int), bus.setCh i (some (channel_init size_limit)), errNone)
  | none =>
    ((bus.channels.length : Int), ⟨bus.channels ++ [some (channel_init size_limit)]⟩, errNone)

/-- Mirrors `coro_bus_channel_open` including the `realloc` failure path of
the grow branch: `allocOk` is whether that allocation succeeds.  On
allocation failure the source returns -1 without touching the error code or
the bus.  The reuse branch performs no fallible allocation check, so
`allocOk` is irrelevant there. -/
def coro_bus_channel_open_alloc (bus : Bus) (errno0 : CoroBusError) (allocOk : Bool)
    (size_limit : Nat) : Int × Bus × CoroBusError :=
  match openScan bus.channels with
  | some i => ((i : Int), bus.setCh i (some (channel_init size_limit)), errNone)
  | none =>
    if allocOk then
      ((bus.channels.length : Int),
        ⟨bus.channels ++ [some (channel_init size_limit)]⟩, errNone)
    else (-1, bus, errno0)

/-- Mirrors `coro_bus_new`: a fresh bus with no slots and the error code set
to `NONE`; on malloc failure (`allocOk = false`) the source returns null
without touching the error code. -/
def coro_bus_new (errno0 : CoroBusError) (allocOk : Bool) :
    Option Bus × CoroBusError :=
  if allocOk then (some ⟨[]⟩, errNone) else (none, errno0)

/-- Mirrors `coro_bus_channel_close`.  The source wakes and detaches every
waiter of the send queue, then of the recv queue, then clears the slot, then
frees the ring buffer, then frees the channel object; the returned trace
lists those steps in that order.  The error code is returned unchanged
because the source never writes it here. -/
def coro_bus_channel_close (bus : Bus) (errno0 : CoroBusError) (channel : Int) :
    Bus × CoroBusError × List CloseEvent :=
  if channel < 0 ∨ (bus.channels.length : Int) ≤ channel then (bus, errno0, [])
  else
    match bus.getCh channel.toNat with
    | none => (bus, errno0, [])
    | some ch =>
      (bus.setCh channel.toNat none, errno0,
        ch.send_queue.map CloseEvent.wakeSendWaiter ++
        ch.recv_queue.map CloseEvent.wakeRecvWaiter ++
        [CloseEvent.detachSlot, CloseEvent.freeBuffer, CloseEvent.freeChannel])

/-- Mirrors `coro_bus_delete`: close every used slot in index order.  The
error code passes through unchanged because no step of the source writes
it. -/
def coro_bus_delete (bus : Bus) (errno0 : CoroBusError) : Bus × CoroBusError :=
  (List.range bus.channels.length).foldl
    (fun s i =>
      match s.1.getCh i with
      | none => s
      | some _ =>
        let r := coro_bus_channel_close s.1 s.2 (i : Int)
        (r.1, r.2.1))
    (bus, errno0)

/-- Mirrors `coro_bus_try_send`.  Returns the status, the new bus, the error
code written, and the wakeup calls made. -/
def coro_bus_try_send (bus : Bus) (channel : Int) (w : Nat) :
    Int × Bus × CoroBusError × List Event :=
  match bus.lookup channel with
  | none => (-1, bus, errNoChannel, [])
  | some ch =>
    if ch.size = ch.size_limit then (-1, bus, errWouldBlock, [])
    else
      let pos := if 0 < ch.size_limit then (ch.head + ch.size) % ch.size_limit else 0
      let data' := if 0 < ch.size_limit then ch.data.set pos w else ch.data
      (0, bus.setCh channel.toNat (some { ch with data := data', size := ch.size + 1 }),
        errNone, [Event.wakeFirstRecv channel.toNat])

/-- Mirrors `coro_bus_try_recv`.  `hasOut` is whether the output pointer is
non-null; the final component is the word stored through that pointer, when
any word is stored at all. -/
def coro_bus_try_recv (bus : Bus) (channel : Int) (hasOut : Bool) :
    Int × Bus × CoroBusError × List Event × Option Nat :=
  match bus.lookup channel with
  | none => (-1, bus, errNoChannel, [], none)
  | some ch =>
    if ch.size = 0 then (-1, bus, errWouldBlock, [], none)
    else
      let out := if hasOut ∧ 0 < ch.size_limit then some (ch.data.getD ch.head 0) else none
      let head' := if 0 < ch.size_limit then (ch.head + 1) % ch.size_limit else ch.head
      (0, bus.setCh channel.toNat (some { ch with head := head', size := ch.size - 1 }),
        errNone, [Event.wakeFirstSend channel.toNat], out)

/-- The copy loop of `coro_bus_try_send_v`: store each word at
`(head + size) % size_limit` and advance `size` by one. -/
def fillRing (limit head : Nat) : List Nat → Nat → List Nat → List Nat × Nat
  | data, size, [] => (data, size)
  | data, size, w :: ws =>
    fillRing limit head (data.set ((head + size) % limit) w) (size + 1) ws

/-- Mirrors `coro_bus_try_send_v`: copy `min count free_space` words, wake a
receiver only when at least one word was written, and return the number of
words written. -/
def coro_bus_try_send_v (bus : Bus) (channel : Int) (ws : List Nat) :
    Int × Bus × CoroBusError × List Event :=
  match bus.lookup channel with
  | none => (-1, bus, errNoChannel, [])
  | some ch =>
    if ch.size = ch.size_limit then (-1, bus, errWouldBlock, [])
    else
      let free_space := ch.size_limit - ch.size
      let to_send := min ws.length free_space
      let r := fillRing ch.size_limit ch.head ch.data ch.size (ws.take to_send)
      ((to_send : Int),
        bus.setCh channel.toNat (some { ch with data := r.1, size := r.2 }),
        errNone,
        if 0 < to_send then [Event.wakeFirstRecv channel.toNat] else [])

/-- The copy loop of `coro_bus_try_recv_v`: read `n` words starting at
`head`, advancing `head` modulo `size_limit`; returns the words read and the
final head. -/
def drainRing (data : List Nat) (limit : Nat) : Nat → Nat → List Nat × Nat
  | head, 0 => ([], head)
  | head, n + 1 =>
    let r := drainRing data limit ((head + 1) % limit) n
    (data.getD head 0 :: r.1, r.2)

/-- Mirrors `coro_bus_try_recv_v`: drain `min capacity size` words and wake
the first blocked sender. -/
def coro_bus_try_recv_v (bus : Bus) (channel : Int) (capacity : Nat) :
    Int × Bus × CoroBusError × List Event × List Nat :=
  match bus.lookup channel with
  | none => (-1, bus, errNoChannel, [], [])
  | some ch =>
    if ch.size = 0 then (-1, bus, errWouldBlock, [], [])
    else
      let to_recv := min capacity ch.size
      let r := drainRing ch.data ch.size_limit ch.head to_recv
      ((to_recv : Int),
        bus.setCh channel.toNat (some { ch with head := r.2, size := ch.size - to_recv }),
        errNone, [Event.wakeFirstSend channel.toNat], r.1)

/-- The per-channel update of the delivery loop of `coro_bus_try_broadcast`:
store the word at `(head + size) % size_limit` when the ring exists, then
advance `size`. -/
def bcastUpdate (w : Nat) (ch : Channel) : Channel :=
  { ch with
    data := if 0 < ch.size_limit then
        ch.data.set ((ch.head + ch.size) % ch.size_limit) w
      else ch.data
    size := ch.size + 1 }

/-- Wakeup calls of the delivery loop of `coro_bus_try_broadcast`, one per
used slot, in slot order; `i` is the index of the first listed slot. -/
def bcastEvents : List (Option Channel) → Nat → List Event
  | [], _ => []
  | none :: rest, i => bcastEvents rest (i + 1)
  | some _ :: rest, i => Event.wakeFirstRecv i :: bcastEvents rest (i + 1)

/-- Mirrors `coro_bus_try_broadcast`: fail with `WOULD_BLOCK` when any open
channel is full, with `NO_CHANNEL` when no channel exists, else append the
word to every open channel and wake each channel's first blocked receiver. -/
def coro_bus_try_broadcast (bus : Bus) (w : Nat) :
    Int × Bus × CoroBusError × List Event :=
  if bus.channels.any (fun oc =>
      match oc with
      | some ch => ch.size == ch.size_limit
      | none => false) then
    (-1, bus, errWouldBlock, [])
  else if bus.channels.countP (fun oc => oc.isSome) = 0 then
    (-1, bus, errNoChannel, [])
  else
    (0, ⟨bus.channels.map (Option.map (bcastUpdate w))⟩, errNone,
      bcastEvents bus.channels 0)

/-- Result of one iteration of a blocking retry loop, before any suspension
actually happens: return success, return failure, suspend on the send or
recv queue of a descriptor, or loop again without suspending. -/
inductive StepOutcome where
  | done (rc : Int)
  | fail (e : CoroBusError)
  | suspendSend (desc : Nat)
  | suspendRecv (desc : Nat)
  | retry

deriving instance DecidableEq for StepOutcome

/-- Error code of a failing loop iteration, when the iteration fails. -/
def StepOutcome.failCode : StepOutcome → Option CoroBusError
  | StepOutcome.fail e => some e
  | _ => none

/-- Whether a loop iteration returns successfully. -/
def StepOutcome.isDone : StepOutcome → Bool
  | StepOutcome.done _ => true
  | _ => false

/-- One iteration of the retry loop of `coro_bus_send`, wake-chaining a
further sender when slack remains after its own success. -/
def coro_bus_send_step (bus : Bus) (channel : Int) (w : Nat) :
    StepOutcome × Bus × CoroBusError × List Event :=
  let r := coro_bus_try_send bus channel w
  let bus1 := r.2.1
  let err := r.2.2.1
  if r.1 = 0 then
    let chain :=
      match bus1.lookup channel with
      | some ch =>
        if ch.size < ch.size_limit then [Event.wakeFirstSend channel.toNat] else []
      | none => []
    (StepOutcome.done 0, bus1, err, r.2.2.2 ++ chain)
  else if err ≠ errWouldBlock then (StepOutcome.fail err, bus1, err, r.2.2.2)
  else
    match bus1.lookup channel with
    | none => (StepOutcome.fail errNoChannel, bus1, errNoChannel, r.2.2.2)
    | some _ => (StepOutcome.suspendSend channel.toNat, bus1, err, r.2.2.2)

/-- One iteration of the retry loop of `coro_bus_recv` (the output pointer of
the blocking wrapper is always passed through non-null). -/
def coro_bus_recv_step (bus : Bus) (channel : Int) :
    StepOutcome × Bus × CoroBusError × List Event :=
  let r := coro_bus_try_recv bus channel true
  let bus1 := r.2.1
  let err := r.2.2.1
  if r.1 = 0 then
    let chain :=
      match bus1.lookup channel with
      | some ch => if 0 < ch.size then [Event.wakeFirstRecv channel.toNat] else []
      | none => []
    (StepOutcome.done 0, bus1, err, r.2.2.2.1 ++ chain)
  else if err ≠ errWouldBlock then (StepOutcome.fail err, bus1, err, r.2.2.2.1)
  else
    match bus1.lookup channel with
    | none => (StepOutcome.fail errNoChannel, bus1, errNoChannel, r.2.2.2.1)
    | some _ => (StepOutcome.suspendRecv channel.toNat, bus1, err, r.2.2.2.1)

/-- One iteration of the retry loop of `coro_bus_send_v`. -/
def coro_bus_send_v_step (bus : Bus) (channel : Int) (ws : List Nat) :
    StepOutcome × Bus × CoroBusError × List Event :=
  let r := coro_bus_try_send_v bus channel ws
  let bus1 := r.2.1
  let err := r.2.2.1
  if 0 ≤ r.1 then
    let chain :=
      match bus1.lookup channel with
      | some ch =>
        if ch.size < ch.size_limit then [Event.wakeFirstSend channel.toNat] else []
      | none => []
    (StepOutcome.done r.1, bus1, err, r.2.2.2 ++ chain)
  else if err ≠ errWouldBlock then (StepOutcome.fail err, bus1, err, r.2.2.2)
  else
    match bus1.lookup channel with
    | none => (StepOutcome.fail errNoChannel, bus1, errNoChannel, r.2.2.2)
    | some _ => (StepOutcome.suspendSend channel.toNat, bus1, err, r.2.2.2)

/-- One iteration of the retry loop of `coro_bus_recv_v`. -/
def coro_bus_recv_v_step (bus : Bus) (channel : Int) (capacity : Nat) :
    StepOutcome × Bus × CoroBusError × List Event :=
  let r := coro_bus_try_recv_v bus channel capacity
  let bus1 := r.2.1
  let err := r.2.2.1
  if 0 ≤ r.1 then
    let chain :=
      match bus1.lookup channel with
      | some ch => if 0 < ch.size then [Event.wakeFirstRecv channel.toNat] else []
      | none => []
    (StepOutcome.done r.1, bus1, err, r.2.2.2.1 ++ chain)
  else if err ≠ errWouldBlock then (StepOutcome.fail err, bus1, err, r.2.2.2.1)
  else
    match bus1.lookup channel with
    | none => (StepOutcome.fail errNoChannel, bus1, errNoChannel, r.2.2.2.1)
    | some _ => (StepOutcome.suspendRecv channel.toNat, bus1, err, r.2.2.2.1)

/-- The full-channel search of the retry loop of `coro_bus_broadcast`. -/
def findFull : List (Option Channel) → Nat → Option Nat
  | [], _ => none
  | none :: rest, i => findFull rest (i + 1)
  | some ch :: rest, i =>
    if ch.size = ch.size_limit then some i else findFull rest (i + 1)

/-- One iteration of the retry loop of `coro_bus_broadcast`: on
`WOULD_BLOCK` it suspends on the send queue of the first full channel, or
retries immediately when none is found any more. -/
def coro_bus_broadcast_step (bus : Bus) (w : Nat) :
    StepOutcome × Bus × CoroBusError × List Event :=
  let r := coro_bus_try_broadcast bus w
  if r.1 = 0 then (StepOutcome.done 0, r.2.1, r.2.2.1, r.2.2.2)
  else if r.2.2.1 ≠ errWouldBlock then (StepOutcome.fail r.2.2.1, r.2.1, r.2.2.1, r.2.2.2)
  else
    match findFull r.2.1.channels 0 with
    | none => (StepOutcome.retry, r.2.1, r.2.2.1, r.2.2.2)
    | some i => (StepOutcome.suspendSend i, r.2.1, r.2.2.1, r.2.2.2)

/-- The channel bounds of the data model: occupancy within capacity and head
within the ring. -/
def chInv (ch : Channel) : Prop :=
  ch.size ≤ ch.size_limit ∧ ch.head < max ch.size_limit 1

instance : DecidablePred chInv := fun ch =>
  inferInstanceAs (Decidable (ch.size ≤ ch.size_limit ∧ ch.head < max ch.size_limit 1))

/-- The ring buffer holds exactly `size_limit` words. -/
def chWf (ch : Channel) : Prop :=
  ch.data.length = ch.size_limit

instance : DecidablePred chWf := fun ch =>
  inferInstanceAs (Decidable (ch.data.length = ch.size_limit))

/-- Every open channel of the bus satisfies the channel bounds. -/
def busInv (bus : Bus) : Prop :=
  ∀ ch ∈ bus.channels.filterMap id, chInv ch

instance (bus : Bus) : Decidable (busInv bus) :=
  inferInstanceAs (Decidable (∀ ch ∈ bus.channels.filterMap id, chInv ch))

/-- Every open channel of the bus has a well-sized ring buffer. -/
def busWf (bus : Bus) : Prop :=
  ∀ ch ∈ bus.channels.filterMap id, chWf ch

instance (bus : Bus) : Decidable (busWf bus) :=
  inferInstanceAs (Decidable (∀ ch ∈ bus.channels.filterMap id, chWf ch))

/-- The logical message sequence of a ring: the word at logical position `k`
is `data[(head + k) % limit]`. -/
def contentsOf (data : List Nat) (limit head size : Nat) : List Nat :=
  (List.range size).map fun k => data.getD ((head + k) % limit) 0

/-- The logical message sequence of a channel, oldest first. -/
def Channel.contents (ch : Channel) : List Nat :=
  contentsOf ch.data ch.size_limit ch.head ch.size

/-! ### Helper lemmas -/

theorem getCh_lt_length {bus : Bus} {d : Nat} {ch : Channel}
    (h : bus.getCh d = some ch) : d < bus.channels.length := by
  by_contra hle
  push_neg at hle
  simp [Bus.getCh, List.getD_eq_getElem?_getD, List.getElem?_eq_none hle] at h

theorem getCh_getElem? {bus : Bus} {d : Nat} {ch : Channel}
    (h : bus.getCh d = some ch) : bus.channels[d]? = some (some ch) := by
  have hd := getCh_lt_length h
  unfold Bus.getCh at h
  rw [List.getD_eq_getElem?_getD, List.getElem?_eq_getElem hd] at h
  simp only [Option.getD_some] at h
  rw [List.getElem?_eq_getElem hd, h]

theorem getCh_mem {bus : Bus} {d : Nat} {ch : Channel}
    (h : bus.getCh d = some ch) : some ch ∈ bus.channels :=
  List.getElem?_mem (getCh_getElem? h)

theorem lookup_natCast {bus : Bus} {d : Nat} (h : d < bus.channels.length) :
    bus.lookup (d : Int) = bus.getCh d := by
  unfold Bus.lookup
  rw [if_neg]
  · simp
  · push_neg
    refine ⟨by positivity, ?_⟩
    exact_mod_cast h

theorem close_errno_unchanged (bus : Bus) (errno0 : CoroBusError) (channel : Int) :
    (coro_bus_channel_close bus errno0 channel).2.1 = errno0 := by
  unfold coro_bus_channel_close
  split
  · rfl
  · split <;> rfl

theorem delete_errno_unchanged (bus : Bus) (errno0 : CoroBusError) :
    (coro_bus_delete bus errno0).2 = errno0 := by
  unfold coro_bus_delete
  generalize List.range bus.channels.length = l
  induction l generalizing bus errno0 with
  | nil => rfl
  | cons i rest ih =>
    simp only [List.foldl_cons]
    cases h : bus.getCh i with
    | none => simp only [h]; exact ih bus errno0
    | some ch =>
      simp only [h]
      rw [show (coro_bus_channel_close bus errno0 (i : Int)).2.1 = errno0 from
        close_errno_unchanged ..]
      exact ih _ errno0

theorem try_send_errNone_iff (bus : Bus) (channel : Int) (w : Nat) :
    (coro_bus_try_send bus channel w).2.2.1 = errNone ↔
      (coro_bus_try_send bus channel w).1 = 0 := by
  unfold coro_bus_try_send
  cases bus.lookup channel with
  | none => simp
  | some ch => by_cases h : ch.size = ch.size_limit <;> simp [h]

theorem try_recv_errNone_iff (bus : Bus) (channel : Int) (hasOut : Bool) :
    (coro_bus_try_recv bus channel hasOut).2.2.1 = errNone ↔
      (coro_bus_try_recv bus channel hasOut).1 = 0 := by
  unfold coro_bus_try_recv
  cases bus.lookup channel with
  | none => simp
  | some ch => by_cases h : ch.size = 0 <;> simp [h]

theorem try_send_v_errNone_iff (bus : Bus) (channel : Int) (ws : List Nat) :
    (coro_bus_try_send_v bus channel ws).2.2.1 = errNone ↔
      0 ≤ (coro_bus_try_send_v bus channel ws).1 := by
  unfold coro_bus_try_send_v
  cases bus.lookup channel with
  | none => simp
  | some ch => by_cases h : ch.size = ch.size_limit <;> simp [h]

theorem try_recv_v_errNone_iff (bus : Bus) (channel : Int) (cap : Nat) :
    (coro_bus_try_recv_v bus channel cap).2.2.1 = errNone ↔
      0 ≤ (coro_bus_try_recv_v bus channel cap).1 := by
  unfold coro_bus_try_recv_v
  cases bus.lookup channel with
  | none => simp
  | some ch => by_cases h : ch.size = 0 <;> simp [h]

theorem try_broadcast_errNone_iff (bus : Bus) (w : Nat) :
    (coro_bus_try_broadcast bus w).2.2.1 = errNone ↔
      (coro_bus_try_broadcast bus w).1 = 0 := by
  unfold coro_bus_try_broadcast
  split
  · simp
  · split <;> simp

theorem open_alloc_eq_open (bus : Bus) (errno0 : CoroBusError) (limit : Nat) :
    coro_bus_channel_open_alloc bus errno0 true limit =
      coro_bus_channel_open bus limit := by
  unfold coro_bus_channel_open_alloc coro_bus_channel_open
  cases openScan bus.channels <;> simp

theorem send_step_errNone_iff (bus : Bus) (channel : Int) (w : Nat) :
    (coro_bus_send_step bus channel w).2.2.1 = errNone ↔
      (coro_bus_send_step bus channel w).1.isDone = true := by
  simp only [coro_bus_send_step]
  split
  · next h0 =>
    simp [StepOutcome.isDone, (try_send_errNone_iff bus channel w).2 h0]
  · next h0 =>
    split
    · next hne =>
      have hnn : (coro_bus_try_send bus channel w).2.2.1 ≠ errNone := fun he =>
        h0 ((try_send_errNone_iff bus channel w).1 he)
      simp [StepOutcome.isDone, hnn]
    · next hwb =>
      have heq : (coro_bus_try_send bus channel w).2.2.1 = errWouldBlock :=
        not_not.mp hwb
      split
      · simp [StepOutcome.isDone]
      · simp [StepOutcome.isDone, heq]

theorem recv_step_errNone_iff (bus : Bus) (channel : Int) :
    (coro_bus_recv_step bus channel).2.2.1 = errNone ↔
      (coro_bus_recv_step bus channel).1.isDone = true := by
  simp only [coro_bus_recv_step]
  split
  · next h0 =>
    simp [StepOutcome.isDone, (try_recv_errNone_iff bus channel true).2 h0]
  · next h0 =>
    split
    · next hne =>
      have hnn : (coro_bus_try_recv bus channel true).2.2.1 ≠ errNone := fun he =>
        h0 ((try_recv_errNone_iff bus channel true).1 he)
      simp [StepOutcome.isDone, hnn]
    · next hwb =>
      have heq : (coro_bus_try_recv bus channel true).2.2.1 = errWouldBlock :=
        not_not.mp hwb
      split
      · simp [StepOutcome.isDone]
      · simp [StepOutcome.isDone, heq]

theorem send_v_step_errNone_iff (bus : Bus) (channel : Int) (ws : List Nat) :
    (coro_bus_send_v_step bus channel ws).2.2.1 = errNone ↔
      (coro_bus_send_v_step bus channel ws).1.isDone = true := by
  simp only [coro_bus_send_v_step]
  split
  · next h0 =>
    simp [StepOutcome.isDone, (try_send_v_errNone_iff bus channel ws).2 h0]
  · next h0 =>
    split
    · next hne =>
      have hnn : (coro_bus_try_send_v bus channel ws).2.2.1 ≠ errNone := fun he =>
        h0 ((try_send_v_errNone_iff bus channel ws).1 he)
      simp [StepOutcome.isDone, hnn]
    · next hwb =>
      have heq : (coro_bus_try_send_v bus channel ws).2.2.1 = errWouldBlock :=
        not_not.mp hwb
      split
      · simp [StepOutcome.isDone]
      · simp [StepOutcome.isDone, heq]

theorem recv_v_step_errNone_iff (bus : Bus) (channel : Int) (cap : Nat) :
    (coro_bus_recv_v_step bus channel cap).2.2.1 = errNone ↔
      (coro_bus_recv_v_step bus channel cap).1.isDone = true := by
  simp only [coro_bus_recv_v_step]
  split
  · next h0 =>
    simp [StepOutcome.isDone, (try_recv_v_errNone_iff bus channel cap).2 h0]
  · next h0 =>
    split
    · next hne =>
      have hnn : (coro_bus_try_recv_v bus channel cap).2.2.1 ≠ errNone := fun he =>
        h0 ((try_recv_v_errNone_iff bus channel cap).1 he)
      simp [StepOutcome.isDone, hnn]
    · next hwb =>
      have heq : (coro_bus_try_recv_v bus channel cap).2.2.1 = errWouldBlock :=
        not_not.mp hwb
      split
      · simp [StepOutcome.isDone]
      · simp [StepOutcome.isDone, heq]

theorem broadcast_step_errNone_iff (bus : Bus) (w : Nat) :
    (coro_bus_broadcast_step bus w).2.2.1 = errNone ↔
      (coro_bus_broadcast_step bus w).1.isDone = true := by
  simp only [coro_bus_broadcast_step]
  split
  · next h0 =>
    simp [StepOutcome.isDone, (try_broadcast_errNone_iff bus w).2 h0]
  · next h0 =>
    split
    · next hne =>
      have hnn : (coro_bus_try_broadcast bus w).2.2.1 ≠ errNone := fun he =>
        h0 ((try_broadcast_errNone_iff bus w).1 he)
      simp [StepOutcome.isDone, hnn]
    · next hwb =>
      have heq : (coro_bus_try_broadcast bus w).2.2.1 = errWouldBlock :=
        not_not.mp hwb
      split
      · simp [StepOutcome.isDone, heq]
      · simp [StepOutcome.isDone, heq]

/-! ### Claim theorems -/

/-- C4, counterexample: `channel_close` of a valid open descriptor leaves
the error code untouched instead of writing `NONE`. -/
def busErrDemo : Bus := ⟨[some (channel_init 1)]⟩

theorem C4_counterexample :
    (busErrDemo.getCh 0).isSome = true ∧
    (coro_bus_channel_close busErrDemo errWouldBlock 0).2.1 = errWouldBlock ∧
    (coro_bus_channel_close busErrDemo errWouldBlock 0).2.1 ≠ errNone := by
  decide

/-- C4 (amended): every public entry point except `channel_close` and
`bus_delete` writes the process-wide error code before returning, with
`NONE` exactly on success — `bus_new`, `channel_open`, the four `try_*`
primitives and `try_broadcast`, and every returning iteration of the five
blocking wrappers; `channel_close` and `bus_delete` never write the error
code and return it unchanged; the allocation-failure paths of `bus_new` and
`channel_open` return null / -1 leaving the error kind and the bus
unchanged. -/
theorem C4_errno_policy :
    (∀ bus errno0 channel,
      (coro_bus_channel_close bus errno0 channel).2.1 = errno0) ∧
    (∀ bus errno0, (coro_bus_delete bus errno0).2 = errno0) ∧
    (∀ errno0, coro_bus_new errno0 true = (some ⟨[]⟩, errNone) ∧
      coro_bus_new errno0 false = (none, errno0)) ∧
    (∀ bus errno0 limit,
      (coro_bus_channel_open_alloc bus errno0 true limit).2.2 = errNone) ∧
    (∀ bus errno0 limit, openScan bus.channels = none →
      coro_bus_channel_open_alloc bus errno0 false limit = (-1, bus, errno0)) ∧
    (∀ bus limit, (coro_bus_channel_open bus limit).2.2 = errNone) ∧
    (∀ bus channel w,
      (coro_bus_try_send bus channel w).2.2.1 = errNone ↔
        (coro_bus_try_send bus channel w).1 = 0) ∧
    (∀ bus channel hasOut,
      (coro_bus_try_recv bus channel hasOut).2.2.1 = errNone ↔
        (coro_bus_try_recv bus channel hasOut).1 = 0) ∧
    (∀ bus channel ws,
      (coro_bus_try_send_v bus channel ws).2.2.1 = errNone ↔
        0 ≤ (coro_bus_try_send_v bus channel ws).1) ∧
    (∀ bus channel cap,
      (coro_bus_try_recv_v bus channel cap).2.2.1 = errNone ↔
        0 ≤ (coro_bus_try_recv_v bus channel cap).1) ∧
    (∀ bus w,
      (coro_bus_try_broadcast bus w).2.2.1 = errNone ↔
        (coro_bus_try_broadcast bus w).1 = 0) ∧
    (∀ bus channel w,
      (coro_bus_send_step bus channel w).2.2.1 = errNone ↔
        (coro_bus_send_step bus channel w).1.isDone = true) ∧
    (∀ bus channel,
      (coro_bus_recv_step bus channel).2.2.1 = errNone ↔
        (coro_bus_recv_step bus channel).1.isDone = true) ∧
    (∀ bus channel ws,
      (coro_bus_send_v_step bus channel ws).2.2.1 = errNone ↔
        (coro_bus_send_v_step bus channel ws).1.isDone = true) ∧
    (∀ bus channel cap,
      (coro_bus_recv_v_step bus channel cap).2.2.1 = errNone ↔
        (coro_bus_recv_v_step bus channel cap).1.isDone = true) ∧
    (∀ bus w,
      (coro_bus_broadcast_step bus w).2.2.1 = errNone ↔
        (coro_bus_broadcast_step bus w).1.isDone = true) := by
  refine ⟨close_errno_unchanged, delete_errno_unchanged, ?_, ?_, ?_, ?_,
    try_send_errNone_iff, try_recv_errNone_iff, try_send_v_errNone_iff,
    try_recv_v_errNone_iff, try_broadcast_errNone_iff,
    send_step_errNone_iff, recv_step_errNone_iff, send_v_step_errNone_iff,
    recv_v_step_errNone_iff, broadcast_step_errNone_iff⟩
  · intro errno0
    exact ⟨rfl, rfl⟩
  · intro bus errno0 limit
    unfold coro_bus_channel_open_alloc
    cases openScan bus.channels <;> simp
  · intro bus errno0 limit h
    unfold coro_bus_channel_open_alloc
    rw [h]
    rfl
  · intro bus limit
    unfold coro_bus_channel_open
    split <;> rfl

/-- Witness for C4 (amended): on a bus with no free slot and a failing
allocation, `channel_open` returns -1 with the error code (here
`WOULD_BLOCK`) and the bus unchanged. -/
theorem C4_errno_policy_witness :
    openScan busErrDemo.channels = none ∧
    coro_bus_channel_open_alloc busErrDemo errWouldBlock false 2 =
      (-1, busErrDemo, errWouldBlock) :=
  ⟨by decide,
    C4_errno_policy.2.2.2.2.1 busErrDemo errWouldBlock 2 (by decide)⟩

/-- C9: with a capacity-0 channel open at descriptor `d` (its occupancy is 0
by the channel bounds), `try_send` on `d` and every `try_broadcast` fail with
`WOULD_BLOCK` and change nothing: the full check `size == size_limit` makes
such a channel permanently full. -/
theorem C9_cap0_always_full (bus : Bus) (d : Nat) (ch : Channel) (w : Nat)
    (hch : bus.getCh d = some ch) (hcap : ch.size_limit = 0)
    (hinv : chInv ch) :
    coro_bus_try_send bus (d : Int) w = (-1, bus, errWouldBlock, []) ∧
    coro_bus_try_broadcast bus w = (-1, bus, errWouldBlock, []) := by
  have hsz : ch.size = 0 := by
    have := hinv.1
    omega
  constructor
  · unfold coro_bus_try_send
    rw [lookup_natCast (getCh_lt_length hch), hch]
    simp [hsz, hcap]
  · unfold coro_bus_try_broadcast
    rw [if_pos]
    exact List.any_eq_true.2 ⟨some ch, getCh_mem hch, by simp [hsz, hcap]⟩

/-- Demo bus for C9: one open channel of capacity 0. -/
def busCap0Demo : Bus := ⟨[some (channel_init 0)]⟩

theorem C9_witness :
    busCap0Demo.getCh 0 = some (channel_init 0) ∧
    chInv (channel_init 0) ∧
    (coro_bus_try_send busCap0Demo (0 : Int) 7 = (-1, busCap0Demo, errWouldBlock, []) ∧
     coro_bus_try_broadcast busCap0Demo 7 = (-1, busCap0Demo, errWouldBlock, [])) :=
  ⟨by decide, by decide,
    C9_cap0_always_full busCap0Demo 0 (channel_init 0) 7 (by decide) (by decide) (by decide)⟩

/-- C10: `try_recv` with a null output pointer on an open, non-empty channel
still succeeds: head advances by one modulo capacity, size decrements, the
send queue gets a wake-first call, the error code becomes `NONE`, 0 is
returned, and the dequeued word is written nowhere. -/
theorem C10_null_out_recv (bus : Bus) (d : Nat) (ch : Channel)
    (hch : bus.getCh d = some ch) (hinv : chInv ch) (hsz : 0 < ch.size) :
    coro_bus_try_recv bus (d : Int) false =
      (0,
        bus.setCh d (some { ch with head := (ch.head + 1) % ch.size_limit,
                                    size := ch.size - 1 }),
        errNone, [Event.wakeFirstSend d], none) := by
  have hcap : 0 < ch.size_limit := by
    have := hinv.1
    omega
  unfold coro_bus_try_recv
  rw [lookup_natCast (getCh_lt_length hch), hch]
  simp [Nat.pos_iff_ne_zero.mp hsz, hcap]

/-- Demo bus for C10: one open channel of capacity 2 holding one message. -/
def busRecvDemo : Bus :=
  ⟨[some { size_limit := 2, send_queue := [], recv_queue := [],
           data := [5, 0], head := 0, size := 1 }]⟩

theorem C10_witness :
    busRecvDemo.getCh 0 =
      some { size_limit := 2, send_queue := [], recv_queue := [],
             data := [5, 0], head := 0, size := 1 } ∧
    coro_bus_try_recv busRecvDemo (0 : Int) false =
      (0,
        busRecvDemo.setCh 0
          (some { size_limit := 2, send_queue := [], recv_queue := [],
                  data := [5, 0], head := 1, size := 0 }),
        errNone, [Event.wakeFirstSend 0], none) := by
  refine ⟨by decide, ?_⟩
  have h := C10_null_out_recv busRecvDemo 0
    { size_limit := 2, send_queue := [], recv_queue := [],
      data := [5, 0], head := 0, size := 1 } (by decide) (by decide) (by decide)
  simpa using h

/-- Wake steps of a close trace. -/
def isWake : CloseEvent → Bool
  | CloseEvent.wakeSendWaiter _ => true
  | CloseEvent.wakeRecvWaiter _ => true
  | _ => false

/-- Tail shape demanded by the spec order after the slot detach: wake steps,
then the buffer free, then the channel free. -/
def wakesThenFrees : List CloseEvent → Bool
  | [CloseEvent.freeBuffer, CloseEvent.freeChannel] => true
  | CloseEvent.wakeSendWaiter _ :: rest => wakesThenFrees rest
  | CloseEvent.wakeRecvWaiter _ :: rest => wakesThenFrees rest
  | _ => false

/-- Step order asserted by the spec for `channel_close`: first the slot
detach, then the wake-all-detach of the wait queues, then the frees. -/
def specCloseOrder : List CloseEvent → Bool
  | [] => true
  | CloseEvent.detachSlot :: rest => wakesThenFrees rest
  | _ => false

theorem takeWhile_append_all {α : Type} {p : α → Bool} :
    ∀ (l₁ l₂ : List α), (∀ a ∈ l₁, p a = true) → (∀ a ∈ l₂.head?, p a = false) →
      (l₁ ++ l₂).takeWhile p = l₁ ∧ (l₁ ++ l₂).dropWhile p = l₂ := by
  intro l₁
  induction l₁ with
  | nil =>
    intro l₂ _ h₂
    cases l₂ with
    | nil => simp
    | cons b t =>
      have hb : p b = false := h₂ b (by simp)
      simp [List.takeWhile, List.dropWhile, hb]
  | cons a t ih =>
    intro l₂ h₁ h₂
    have ha : p a = true := h₁ a (by simp)
    have := ih l₂ (fun x hx => h₁ x (by simp [hx])) h₂
    simp [List.takeWhile, List.dropWhile, ha, this.1, this.2]

/-- Demo bus for C2: one open channel with a coroutine blocked on send. -/
def busCloseDemo : Bus :=
  ⟨[some { size_limit := 1, send_queue := [7], recv_queue := [],
           data := [0], head := 0, size := 1 }]⟩

/-- C2, counterexample: closing a valid open descriptor whose send queue
holds one waiter produces the step trace wake, detach, free, free — the slot
detach is not the first step, contrary to the claimed order. -/
theorem C2_counterexample :
    (busCloseDemo.getCh 0).isSome = true ∧
    (coro_bus_channel_close busCloseDemo errNone 0).2.2 =
      [CloseEvent.wakeSendWaiter 7, CloseEvent.detachSlot,
       CloseEvent.freeBuffer, CloseEvent.freeChannel] ∧
    specCloseOrder (coro_bus_channel_close busCloseDemo errNone 0).2.2 = false := by
  decide

/-- C2 (amended): `channel_close` on a valid open descriptor wake-all-detaches
the send queue, then the recv queue, then detaches the slot, then releases
the buffer and the channel object.  All waiters of both queues are woken and
detached before any other step, so both wait queues are empty before any
channel storage is freed, and the slot is free afterwards. -/
theorem C2_close_order (bus : Bus) (errno0 : CoroBusError) (d : Nat) (ch : Channel)
    (hch : bus.getCh d = some ch) :
    coro_bus_channel_close bus errno0 (d : Int) =
      (bus.setCh d none, errno0,
        ch.send_queue.map CloseEvent.wakeSendWaiter ++
        ch.recv_queue.map CloseEvent.wakeRecvWaiter ++
        [CloseEvent.detachSlot, CloseEvent.freeBuffer, CloseEvent.freeChannel]) ∧
    ((coro_bus_channel_close bus errno0 (d : Int)).2.2.takeWhile isWake =
        ch.send_queue.map CloseEvent.wakeSendWaiter ++
        ch.recv_queue.map CloseEvent.wakeRecvWaiter ∧
      (coro_bus_channel_close bus errno0 (d : Int)).2.2.dropWhile isWake =
        [CloseEvent.detachSlot, CloseEvent.freeBuffer, CloseEvent.freeChannel]) ∧
    (coro_bus_channel_close bus errno0 (d : Int)).1.getCh d = none := by
  have hd := getCh_lt_length hch
  have heq : coro_bus_channel_close bus errno0 (d : Int) =
      (bus.setCh d none, errno0,
        ch.send_queue.map CloseEvent.wakeSendWaiter ++
        ch.recv_queue.map CloseEvent.wakeRecvWaiter ++
        [CloseEvent.detachSlot, CloseEvent.freeBuffer, CloseEvent.freeChannel]) := by
    unfold coro_bus_channel_close
    rw [if_neg]
    · simp only [Int.toNat_natCast, hch]
    · push_neg
      exact ⟨by positivity, by exact_mod_cast hd⟩
  refine ⟨heq, ?_, ?_⟩
  · rw [heq]
    have := takeWhile_append_all (p := isWake)
      (ch.send_queue.map CloseEvent.wakeSendWaiter ++
        ch.recv_queue.map CloseEvent.wakeRecvWaiter)
      [CloseEvent.detachSlot, CloseEvent.freeBuffer, CloseEvent.freeChannel]
      (by
        intro a ha
        rcases List.mem_append.1 ha with h | h <;>
          rcases List.mem_map.1 h with ⟨c, _, rfl⟩ <;> rfl)
      (by intro a ha; simp at ha; subst ha; rfl)
    simpa [List.append_assoc] using this
  · rw [heq]
    simp [Bus.setCh, Bus.getCh, List.getD_eq_getElem?_getD, List.getElem?_set_self hd]

/-- Witness for C2 (amended) at a concrete bus. -/
theorem C2_close_order_witness :
    coro_bus_channel_close busCloseDemo errNone (0 : Int) =
      (busCloseDemo.setCh 0 none, errNone,
        [CloseEvent.wakeSendWaiter 7, CloseEvent.detachSlot,
         CloseEvent.freeBuffer, CloseEvent.freeChannel]) ∧
    ((coro_bus_channel_close busCloseDemo errNone (0 : Int)).2.2.takeWhile isWake =
        [CloseEvent.wakeSendWaiter 7] ∧
      (coro_bus_channel_close busCloseDemo errNone (0 : Int)).2.2.dropWhile isWake =
        [CloseEvent.detachSlot, CloseEvent.freeBuffer, CloseEvent.freeChannel]) ∧
    (coro_bus_channel_close busCloseDemo errNone (0 : Int)).1.getCh 0 = none := by
  have h := C2_close_order busCloseDemo errNone 0
    { size_limit := 1, send_queue := [7], recv_queue := [],
      data := [0], head := 0, size := 1 } (by decide)
  simpa using h

/-- C8: no iteration of a blocking retry loop (send, recv, send_v, recv_v,
broadcast) returns failure with `WOULD_BLOCK`: a failing iteration always
leaves `NO_CHANNEL`.  A blocked caller therefore returns only after a
successful retry or, when the descriptor is out of range, its slot is empty,
or the channel was closed while it was blocked, with `NO_CHANNEL`. -/
theorem C8_blocking_never_would_block :
    (∀ bus channel w,
      (coro_bus_send_step bus channel w).1.failCode = none ∨
      (coro_bus_send_step bus channel w).1.failCode = some errNoChannel) ∧
    (∀ bus channel,
      (coro_bus_recv_step bus channel).1.failCode = none ∨
      (coro_bus_recv_step bus channel).1.failCode = some errNoChannel) ∧
    (∀ bus channel ws,
      (coro_bus_send_v_step bus channel ws).1.failCode = none ∨
      (coro_bus_send_v_step bus channel ws).1.failCode = some errNoChannel) ∧
    (∀ bus channel cap,
      (coro_bus_recv_v_step bus channel cap).1.failCode = none ∨
      (coro_bus_recv_v_step bus channel cap).1.failCode = some errNoChannel) ∧
    (∀ bus w,
      (coro_bus_broadcast_step bus w).1.failCode = none ∨
      (coro_bus_broadcast_step bus w).1.failCode = some errNoChannel) := by
  refine ⟨?_, ?_, ?_, ?_, ?_⟩
  · intro bus channel w
    simp only [coro_bus_send_step]
    split
    · left; rfl
    · next h0 =>
      split
      · next hne =>
        right
        have hiff := try_send_errNone_iff bus channel w
        cases he : (coro_bus_try_send bus channel w).2.2.1 with
        | errNone => exact absurd (hiff.1 he) h0
        | errNoChannel => rfl
        | errWouldBlock => exact absurd he hne
      · split <;> simp [StepOutcome.failCode]
  · intro bus channel
    simp only [coro_bus_recv_step]
    split
    · left; rfl
    · next h0 =>
      split
      · next hne =>
        right
        have hiff := try_recv_errNone_iff bus channel true
        cases he : (coro_bus_try_recv bus channel true).2.2.1 with
        | errNone => exact absurd (hiff.1 he) h0
        | errNoChannel => rfl
        | errWouldBlock => exact absurd he hne
      · split <;> simp [StepOutcome.failCode]
  · intro bus channel ws
    simp only [coro_bus_send_v_step]
    split
    · left; rfl
    · next h0 =>
      split
      · next hne =>
        right
        have hiff := try_send_v_errNone_iff bus channel ws
        cases he : (coro_bus_try_send_v bus channel ws).2.2.1 with
        | errNone => exact absurd (hiff.1 he) h0
        | errNoChannel => rfl
        | errWouldBlock => exact absurd he hne
      · split <;> simp [StepOutcome.failCode]
  · intro bus channel cap
    simp only [coro_bus_recv_v_step]
    split
    · left; rfl
    · next h0 =>
      split
      · next hne =>
        right
        have hiff := try_recv_v_errNone_iff bus channel cap
        cases he : (coro_bus_try_recv_v bus channel cap).2.2.1 with
        | errNone => exact absurd (hiff.1 he) h0
        | errNoChannel => rfl
        | errWouldBlock => exact absurd he hne
      · split <;> simp [StepOutcome.failCode]
  · intro bus w
    simp only [coro_bus_broadcast_step]
    split
    · left; rfl
    · next h0 =>
      split
      · next hne =>
        right
        have hiff := try_broadcast_errNone_iff bus w
        cases he : (coro_bus_try_broadcast bus w).2.2.1 with
        | errNone => exact absurd (hiff.1 he) h0
        | errNoChannel => rfl
        | errWouldBlock => exact absurd he hne
      · split <;> simp [StepOutcome.failCode]

/-! ### Ring-buffer lemmas -/

theorem ring_pos_ne {limit k s : Nat} (hk : k < limit) (hs : s < limit)
    (hne : k ≠ s) (h₀ : Nat) : (h₀ + k) % limit ≠ (h₀ + s) % limit := by
  intro h
  have hmod : k ≡ s [MOD limit] := Nat.ModEq.add_left_cancel' h₀ h
  rw [Nat.ModEq, Nat.mod_eq_of_lt hk, Nat.mod_eq_of_lt hs] at hmod
  exact hne hmod

theorem contentsOf_snoc {data : List Nat} {limit head size : Nat} (w : Nat)
    (hlen : data.length = limit) (hsz : size < limit) :
    contentsOf (data.set ((head + size) % limit) w) limit head (size + 1) =
      contentsOf data limit head size ++ [w] := by
  have hlim : 0 < limit := Nat.lt_of_le_of_lt (Nat.zero_le _) hsz
  unfold contentsOf
  rw [List.range_succ, List.map_append]
  congr 1
  · apply List.map_congr_left
    intro k hk
    have hk' : k < size := List.mem_range.mp hk
    rw [List.getD_eq_getElem?_getD, List.getD_eq_getElem?_getD,
      List.getElem?_set_ne (ring_pos_ne hsz (hk'.trans hsz) (Nat.ne_of_gt hk') head)]
  · have hpos : (head + size) % limit < data.length := by
      rw [hlen]; exact Nat.mod_lt _ hlim
    simp [List.getD_eq_getElem?_getD, List.getElem?_set_self hpos]

theorem contentsOf_cons {data : List Nat} {limit head : Nat} (size : Nat)
    (hhead : head < limit) :
    contentsOf data limit head (size + 1) =
      data.getD head 0 :: contentsOf data limit ((head + 1) % limit) size := by
  unfold contentsOf
  rw [List.range_succ_eq_map]
  simp only [List.map_cons, List.map_map]
  congr 1
  · rw [Nat.add_zero, Nat.mod_eq_of_lt hhead]
  · apply List.map_congr_left
    intro k _
    simp only [Function.comp_apply]
    congr 1
    rw [Nat.mod_add_mod]
    congr 1
    omega

/-- C5: on an open channel with its bounds and buffer intact, `try_send`
writes its word at `buffer[(head + size) % capacity]` and increments `size`
— appending the word to the logical message sequence — and `try_recv` reads
`buffer[head]`, advances `head` by one modulo capacity and decrements `size`
— popping the front of the logical message sequence.  The message at logical
position `k` is `buffer[(head + k) % capacity]` by definition of
`Channel.contents`, so sends on one channel are received in FIFO order. -/
theorem C5_ring_fifo (bus : Bus) (d : Nat) (ch : Channel) (w : Nat)
    (hch : bus.getCh d = some ch) (hinv : chInv ch) (hwf : chWf ch) :
    (ch.size ≠ ch.size_limit →
      coro_bus_try_send bus (d : Int) w =
        (0,
          bus.setCh d (some { ch with
            data := ch.data.set ((ch.head + ch.size) % ch.size_limit) w,
            size := ch.size + 1 }),
          errNone, [Event.wakeFirstRecv d]) ∧
      Channel.contents { ch with
          data := ch.data.set ((ch.head + ch.size) % ch.size_limit) w,
          size := ch.size + 1 } = ch.contents ++ [w]) ∧
    (ch.size ≠ 0 →
      coro_bus_try_recv bus (d : Int) true =
        (0,
          bus.setCh d (some { ch with head := (ch.head + 1) % ch.size_limit,
                                      size := ch.size - 1 }),
          errNone, [Event.wakeFirstSend d], some (ch.data.getD ch.head 0)) ∧
      ch.contents =
        ch.data.getD ch.head 0 ::
          Channel.contents { ch with head := (ch.head + 1) % ch.size_limit,
                                     size := ch.size - 1 }) := by
  constructor
  · intro hne
    have hlt : ch.size < ch.size_limit := Nat.lt_of_le_of_ne hinv.1 hne
    have hlim : 0 < ch.size_limit := Nat.lt_of_le_of_lt (Nat.zero_le _) hlt
    constructor
    · unfold coro_bus_try_send
      rw [lookup_natCast (getCh_lt_length hch), hch]
      simp [hne, hlim]
    · exact contentsOf_snoc w hwf hlt
  · intro hne
    have hsz : 0 < ch.size := Nat.pos_of_ne_zero hne
    have hlim : 0 < ch.size_limit := Nat.lt_of_lt_of_le hsz hinv.1
    have hhead : ch.head < ch.size_limit := by
      have := hinv.2
      omega
    constructor
    · unfold coro_bus_try_recv
      rw [lookup_natCast (getCh_lt_length hch), hch]
      simp [hne, hlim]
    · show contentsOf ch.data ch.size_limit ch.head ch.size = _
      rw [show ch.size = (ch.size - 1) + 1 by omega]
      exact contentsOf_cons (ch.size - 1) hhead

/-- Demo bus for C5: capacity 3, two messages 4 then 9, head 2 (wrapped). -/
def busFifoDemo : Bus :=
  ⟨[some { size_limit := 3, send_queue := [], recv_queue := [],
           data := [9, 0, 4], head := 2, size := 2 }]⟩

theorem C5_witness :
    coro_bus_try_send busFifoDemo (0 : Int) 6 =
      (0,
        busFifoDemo.setCh 0
          (some { size_limit := 3, send_queue := [], recv_queue := [],
                  data := [9, 6, 4], head := 2, size := 3 }),
        errNone, [Event.wakeFirstRecv 0]) ∧
    Channel.contents { size_limit := 3, send_queue := [], recv_queue := [],
                       data := [9, 6, 4], head := 2, size := 3 } = [4, 9, 6] ∧
    coro_bus_try_recv busFifoDemo (0 : Int) true =
      (0,
        busFifoDemo.setCh 0
          (some { size_limit := 3, send_queue := [], recv_queue := [],
                  data := [9, 0, 4], head := 0, size := 1 }),
        errNone, [Event.wakeFirstSend 0], some 4) ∧
    Channel.contents { size_limit := 3, send_queue := [], recv_queue := [],
                       data := [9, 0, 4], head := 2, size := 2 } = 4 :: [9] := by
  have h := C5_ring_fifo busFifoDemo 0
    { size_limit := 3, send_queue := [], recv_queue := [],
      data := [9, 0, 4], head := 2, size := 2 } 6 (by decide) (by decide) (by decide)
  have hs := h.1 (by decide)
  have hr := h.2 (by decide)
  refine ⟨?_, ?_, ?_, ?_⟩
  · simpa using hs.1
  · have := hs.2
    simpa using this
  · simpa using hr.1
  · have := hr.2
    simpa using this

/-! ### Invariant preservation -/

theorem lookup_mem {bus : Bus} {channel : Int} {ch : Channel}
    (h : bus.lookup channel = some ch) : some ch ∈ bus.channels := by
  unfold Bus.lookup at h
  split at h
  · cases h
  · exact getCh_mem h

theorem busInv_lookup {bus : Bus} (h : busInv bus) {channel : Int} {ch : Channel}
    (hl : bus.lookup channel = some ch) : chInv ch :=
  h ch (List.mem_filterMap.2 ⟨some ch, lookup_mem hl, rfl⟩)

theorem busInv_set {bus : Bus} {i : Nat} {ch' : Channel}
    (h : busInv bus) (hch' : chInv ch') : busInv (bus.setCh i (some ch')) := by
  intro c hc
  rw [List.mem_filterMap] at hc
  obtain ⟨oc, hmem, hoc⟩ := hc
  rcases List.mem_or_eq_of_mem_set hmem with hmem' | rfl
  · exact h c (List.mem_filterMap.2 ⟨oc, hmem', hoc⟩)
  · cases hoc
    exact hch'

theorem busInv_set_none {bus : Bus} {i : Nat}
    (h : busInv bus) : busInv (bus.setCh i none) := by
  intro c hc
  rw [List.mem_filterMap] at hc
  obtain ⟨oc, hmem, hoc⟩ := hc
  rcases List.mem_or_eq_of_mem_set hmem with hmem' | rfl
  · exact h c (List.mem_filterMap.2 ⟨oc, hmem', hoc⟩)
  · cases hoc

theorem fillRing_size (limit head : Nat) :
    ∀ (ws data : List Nat) (size : Nat),
      (fillRing limit head data size ws).2 = size + ws.length := by
  intro ws
  induction ws with
  | nil => intro data size; simp [fillRing]
  | cons w t ih =>
    intro data size
    rw [fillRing, ih]
    simp
    omega

theorem drainRing_head_lt (data : List Nat) (limit : Nat) (hlim : 0 < limit) :
    ∀ (n head : Nat), head < limit → (drainRing data limit head n).2 < limit := by
  intro n
  induction n with
  | zero => intro head hh; exact hh
  | succ m ih =>
    intro head hh
    rw [drainRing]
    exact ih _ (Nat.mod_lt _ hlim)

theorem busInv_try_send (bus : Bus) (channel : Int) (w : Nat) (h : busInv bus) :
    busInv (coro_bus_try_send bus channel w).2.1 := by
  unfold coro_bus_try_send
  cases hl : bus.lookup channel with
  | none => exact h
  | some ch =>
    by_cases hfull : ch.size = ch.size_limit
    · simp only [hfull, if_pos rfl]
      exact h
    · simp only [if_neg hfull]
      have hinv := busInv_lookup h hl
      refine busInv_set h ⟨?_, hinv.2⟩
      show ch.size + 1 ≤ ch.size_limit
      have h1 := hinv.1
      omega

theorem busInv_try_recv (bus : Bus) (channel : Int) (hasOut : Bool) (h : busInv bus) :
    busInv (coro_bus_try_recv bus channel hasOut).2.1 := by
  unfold coro_bus_try_recv
  cases hl : bus.lookup channel with
  | none => exact h
  | some ch =>
    by_cases hempty : ch.size = 0
    · simp only [hempty, if_pos rfl]
      exact h
    · simp only [if_neg hempty]
      have hinv := busInv_lookup h hl
      refine busInv_set h ⟨?_, ?_⟩
      · show ch.size - 1 ≤ ch.size_limit
        have h1 := hinv.1
        omega
      · show (if 0 < ch.size_limit then (ch.head + 1) % ch.size_limit else ch.head) <
          max ch.size_limit 1
        by_cases hlim : 0 < ch.size_limit
        · rw [if_pos hlim]
          have := Nat.mod_lt (ch.head + 1) hlim
          omega
        · rw [if_neg hlim]
          exact hinv.2

theorem busInv_try_send_v (bus : Bus) (channel : Int) (ws : List Nat) (h : busInv bus) :
    busInv (coro_bus_try_send_v bus channel ws).2.1 := by
  unfold coro_bus_try_send_v
  cases hl : bus.lookup channel with
  | none => exact h
  | some ch =>
    by_cases hfull : ch.size = ch.size_limit
    · simp only [hfull, if_pos rfl]
      exact h
    · simp only [if_neg hfull]
      have hinv := busInv_lookup h hl
      refine busInv_set h ⟨?_, hinv.2⟩
      show (fillRing ch.size_limit ch.head ch.data ch.size
        (ws.take (min ws.length (ch.size_limit - ch.size)))).2 ≤ ch.size_limit
      rw [fillRing_size, List.length_take]
      have h1 := hinv.1
      omega

theorem busInv_try_recv_v (bus : Bus) (channel : Int) (cap : Nat) (h : busInv bus) :
    busInv (coro_bus_try_recv_v bus channel cap).2.1 := by
  unfold coro_bus_try_recv_v
  cases hl : bus.lookup channel with
  | none => exact h
  | some ch =>
    by_cases hempty : ch.size = 0
    · simp only [hempty, if_pos rfl]
      exact h
    · simp only [if_neg hempty]
      have hinv := busInv_lookup h hl
      have hlim : 0 < ch.size_limit := by
        have h1 := hinv.1
        omega
      refine busInv_set h ⟨?_, ?_⟩
      · show ch.size - min cap ch.size ≤ ch.size_limit
        have h1 := hinv.1
        omega
      · show (drainRing ch.data ch.size_limit ch.head (min cap ch.size)).2 <
          max ch.size_limit 1
        have hhead : ch.head < ch.size_limit := by
          have h2 := hinv.2
          omega
        have := drainRing_head_lt ch.data ch.size_limit hlim
          (min cap ch.size) ch.head hhead
        omega

theorem busInv_try_broadcast (bus : Bus) (w : Nat) (h : busInv bus) :
    busInv (coro_bus_try_broadcast bus w).2.1 := by
  unfold coro_bus_try_broadcast
  by_cases hfull : bus.channels.any (fun oc =>
      match oc with
      | some ch => ch.size == ch.size_limit
      | none => false) = true
  · simp only [if_pos hfull]
    exact h
  · simp only [if_neg hfull]
    by_cases hnone : bus.channels.countP (fun oc => oc.isSome) = 0
    · simp only [if_pos hnone]
      exact h
    · simp only [if_neg hnone]
      intro c hc
      rw [List.mem_filterMap] at hc
      obtain ⟨oc, hmem, hoc⟩ := hc
      rw [List.mem_map] at hmem
      obtain ⟨oc₀, hmem₀, rfl⟩ := hmem
      cases oc₀ with
      | none => cases hoc
      | some ch₀ =>
        cases hoc
        have hinv₀ : chInv ch₀ := h ch₀ (List.mem_filterMap.2 ⟨some ch₀, hmem₀, rfl⟩)
        have hne : ¬(ch₀.size == ch₀.size_limit) = true := by
          intro hbeq
          exact hfull (List.any_eq_true.2 ⟨some ch₀, hmem₀, hbeq⟩)
        rw [beq_iff_eq] at hne
        refine ⟨?_, ?_⟩
        · show ch₀.size + 1 ≤ ch₀.size_limit
          have h1 := hinv₀.1
          omega
        · show ch₀.head < max ch₀.size_limit 1
          exact hinv₀.2

theorem chInv_init (limit : Nat) : chInv (channel_init limit) := by
  constructor
  · exact Nat.zero_le _
  · simp [channel_init]

theorem busInv_open (bus : Bus) (limit : Nat) (h : busInv bus) :
    busInv (coro_bus_channel_open bus limit).2.1 := by
  unfold coro_bus_channel_open
  cases openScan bus.channels with
  | some i => exact busInv_set h (chInv_init limit)
  | none =>
    intro c hc
    rw [List.mem_filterMap] at hc
    obtain ⟨oc, hmem, hoc⟩ := hc
    rcases List.mem_append.1 hmem with hmem' | hmem'
    · exact h c (List.mem_filterMap.2 ⟨oc, hmem', hoc⟩)
    · simp at hmem'
      subst hmem'
      cases hoc
      exact chInv_init limit

theorem busInv_close (bus : Bus) (errno0 : CoroBusError) (channel : Int)
    (h : busInv bus) : busInv (coro_bus_channel_close bus errno0 channel).1 := by
  unfold coro_bus_channel_close
  split
  · exact h
  · split
    · exact h
    · exact busInv_set_none h

theorem busInv_delete (bus : Bus) (errno0 : CoroBusError) (h : busInv bus) :
    busInv (coro_bus_delete bus errno0).1 := by
  unfold coro_bus_delete
  generalize List.range bus.channels.length = l
  induction l generalizing bus errno0 with
  | nil => exact h
  | cons i rest ih =>
    simp only [List.foldl_cons]
    cases hg : bus.getCh i with
    | none => exact ih bus errno0 h
    | some ch => exact ih _ _ (busInv_close bus errno0 (i : Int) h)

/-- C3: every operation of the bus preserves the channel bounds
`size ≤ capacity` and `head < max(capacity, 1)` of every open channel (sizes
and heads are naturals, so the lower bounds hold by type).  In particular a
channel opened with capacity 0 always counts as full, so the send-family
operations fail on it without touching the bus and its size never rises
above 0 — the source does not reach `size > capacity == 0`. -/
theorem C3_bounds_invariant :
    (∀ bus channel w, busInv bus → busInv (coro_bus_try_send bus channel w).2.1) ∧
    (∀ bus channel hasOut, busInv bus → busInv (coro_bus_try_recv bus channel hasOut).2.1) ∧
    (∀ bus channel ws, busInv bus → busInv (coro_bus_try_send_v bus channel ws).2.1) ∧
    (∀ bus channel cap, busInv bus → busInv (coro_bus_try_recv_v bus channel cap).2.1) ∧
    (∀ bus w, busInv bus → busInv (coro_bus_try_broadcast bus w).2.1) ∧
    (∀ bus limit, busInv bus → busInv (coro_bus_channel_open bus limit).2.1) ∧
    (∀ bus errno0 channel, busInv bus → busInv (coro_bus_channel_close bus errno0 channel).1) ∧
    (∀ bus errno0, busInv bus → busInv (coro_bus_delete bus errno0).1) ∧
    (∀ (bus : Bus) (d : Nat) (ch : Channel) (w : Nat) (ws : List Nat),
      bus.getCh d = some ch → ch.size_limit = 0 → busInv bus →
      (coro_bus_try_send bus (d : Int) w).2.1 = bus ∧
      (coro_bus_try_send_v bus (d : Int) ws).2.1 = bus ∧
      (coro_bus_try_broadcast bus w).2.1 = bus) := by
  refine ⟨busInv_try_send, busInv_try_recv, busInv_try_send_v, busInv_try_recv_v,
    busInv_try_broadcast, busInv_open, busInv_close, busInv_delete, ?_⟩
  intro bus d ch w ws hch hcap hbus
  have hinv : chInv ch :=
    hbus ch (List.mem_filterMap.2 ⟨some ch, getCh_mem hch, rfl⟩)
  have hsz : ch.size = 0 := by
    have h1 := hinv.1
    omega
  have hfull : ch.size = ch.size_limit := by omega
  refine ⟨?_, ?_, ?_⟩
  · unfold coro_bus_try_send
    rw [lookup_natCast (getCh_lt_length hch), hch]
    simp [hfull]
  · unfold coro_bus_try_send_v
    rw [lookup_natCast (getCh_lt_length hch), hch]
    simp [hfull]
  · unfold coro_bus_try_broadcast
    rw [if_pos (List.any_eq_true.2 ⟨some ch, getCh_mem hch, by simp [hfull]⟩)]

/-- Demo bus for C3: a capacity-2 channel with one message and a capacity-0
channel, both satisfying the bounds. -/
def busInvDemo : Bus :=
  ⟨[some { size_limit := 2, send_queue := [], recv_queue := [],
           data := [3, 0], head := 0, size := 1 },
    some (channel_init 0)]⟩

theorem C3_witness :
    busInv busInvDemo ∧
    busInv (coro_bus_try_send busInvDemo 0 8).2.1 ∧
    busInv (coro_bus_try_recv busInvDemo 0 true).2.1 ∧
    busInv (coro_bus_try_broadcast busInvDemo 8).2.1 ∧
    busInv (coro_bus_channel_open busInvDemo 4).2.1 ∧
    busInv (coro_bus_delete busInvDemo errNone).1 ∧
    ((coro_bus_try_send busInvDemo (1 : Int) 8).2.1 = busInvDemo ∧
     (coro_bus_try_send_v busInvDemo (1 : Int) [8]).2.1 = busInvDemo ∧
     (coro_bus_try_broadcast busInvDemo 8).2.1 = busInvDemo) :=
  ⟨by decide,
    C3_bounds_invariant.1 busInvDemo 0 8 (by decide),
    C3_bounds_invariant.2.1 busInvDemo 0 true (by decide),
    C3_bounds_invariant.2.2.2.2.1 busInvDemo 8 (by decide),
    C3_bounds_invariant.2.2.2.2.2.1 busInvDemo 4 (by decide),
    C3_bounds_invariant.2.2.2.2.2.2.2.1 busInvDemo errNone (by decide),
    C3_bounds_invariant.2.2.2.2.2.2.2.2 busInvDemo 1 (channel_init 0) 8 [8]
      (by decide) (by decide) (by decide)⟩

theorem getCh_map (bus : Bus) (f : Channel → Channel) (i : Nat) :
    (Bus.mk (bus.channels.map (Option.map f))).getCh i = (bus.getCh i).map f := by
  unfold Bus.getCh
  simp only [List.getD_eq_getElem?_getD, List.getElem?_map]
  cases bus.channels[i]? with
  | none => rfl
  | some oc => cases oc <;> rfl

theorem bcastEvents_mem : ∀ (l : List (Option Channel)) (j i : Nat) (ch : Channel),
    l[j]? = some (some ch) → Event.wakeFirstRecv (i + j) ∈ bcastEvents l i := by
  intro l
  induction l with
  | nil => intro j i ch h; simp at h
  | cons hd tl ih =>
    intro j i ch h
    cases j with
    | zero =>
      simp only [List.getElem?_cons_zero, Option.some_inj] at h
      subst h
      simp [bcastEvents]
    | succ m =>
      simp only [List.getElem?_cons_succ] at h
      have := ih m (i + 1) ch h
      cases hd with
      | none =>
        rw [bcastEvents]
        simpa [Nat.add_assoc, Nat.add_comm 1 m] using this
      | some c =>
        rw [bcastEvents]
        refine List.mem_cons_of_mem _ ?_
        simpa [Nat.add_assoc, Nat.add_comm 1 m] using this

/-- C1: when `try_broadcast` succeeds, every open channel gains exactly one
message, the broadcast word sits at its logical tail slot
`(head + old size) % capacity`, head is unchanged, and that channel's recv
queue receives a wake-first call; when `try_broadcast` fails, the bus — so
every channel's size, head, and buffer — is unchanged. -/
theorem C1_broadcast_atomic (bus : Bus) (w : Nat)
    (hinv : busInv bus) (hwf : busWf bus) :
    ((coro_bus_try_broadcast bus w).1 = 0 →
      ∀ i ch, bus.getCh i = some ch →
        ∃ ch', (coro_bus_try_broadcast bus w).2.1.getCh i = some ch' ∧
          ch'.size = ch.size + 1 ∧
          ch'.head = ch.head ∧
          ch'.size_limit = ch.size_limit ∧
          ch'.data.getD ((ch.head + ch.size) % ch.size_limit) 0 = w ∧
          Event.wakeFirstRecv i ∈ (coro_bus_try_broadcast bus w).2.2.2) ∧
    ((coro_bus_try_broadcast bus w).1 ≠ 0 →
      (coro_bus_try_broadcast bus w).2.1 = bus) := by
  unfold coro_bus_try_broadcast
  by_cases hAny : bus.channels.any (fun oc =>
      match oc with
      | some ch => ch.size == ch.size_limit
      | none => false) = true
  · rw [if_pos hAny]
    exact ⟨fun h0 => absurd h0 (by simp), fun _ => rfl⟩
  · rw [if_neg hAny]
    by_cases hCount : bus.channels.countP (fun oc => oc.isSome) = 0
    · rw [if_pos hCount]
      exact ⟨fun h0 => absurd h0 (by simp), fun _ => rfl⟩
    · simp only [if_neg hCount]
      refine ⟨?_, fun h0 => absurd rfl h0⟩
      intro _ i ch hch
      have hmem := getCh_mem hch
      have hchinv : chInv ch := hinv ch (List.mem_filterMap.2 ⟨some ch, hmem, rfl⟩)
      have hchwf : chWf ch := hwf ch (List.mem_filterMap.2 ⟨some ch, hmem, rfl⟩)
      have hnotfull : ¬(ch.size == ch.size_limit) = true := fun hb =>
        hAny (List.any_eq_true.2 ⟨some ch, hmem, hb⟩)
      rw [beq_iff_eq] at hnotfull
      have hlim : 0 < ch.size_limit := by
        have h1 := hchinv.1
        omega
      refine ⟨bcastUpdate w ch, ?_, rfl, rfl, rfl, ?_, ?_⟩
      · show (Bus.mk (bus.channels.map (Option.map (bcastUpdate w)))).getCh i = _
        rw [getCh_map, hch]
        rfl
      · show (if 0 < ch.size_limit then
            ch.data.set ((ch.head + ch.size) % ch.size_limit) w
          else ch.data).getD ((ch.head + ch.size) % ch.size_limit) 0 = w
        rw [if_pos hlim]
        have hpos : (ch.head + ch.size) % ch.size_limit < ch.data.length := by
          rw [hchwf]
          exact Nat.mod_lt _ hlim
        simp [List.getD_eq_getElem?_getD, List.getElem?_set_self hpos]
      · show Event.wakeFirstRecv i ∈ bcastEvents bus.channels 0
        simpa using bcastEvents_mem bus.channels i 0 ch (getCh_getElem? hch)

/-- Demo bus for C1: two open channels (capacities 2 and 1) plus a free
slot; no channel is full, so broadcast succeeds. -/
def busBcastDemo : Bus :=
  ⟨[some { size_limit := 2, send_queue := [], recv_queue := [],
           data := [4, 0], head := 0, size := 1 },
    none,
    some { size_limit := 1, send_queue := [], recv_queue := [9],
           data := [0], head := 0, size := 0 }]⟩

theorem C1_witness :
    busInv busBcastDemo ∧ busWf busBcastDemo ∧
    (((coro_bus_try_broadcast busBcastDemo 7).1 = 0 →
      ∀ i ch, busBcastDemo.getCh i = some ch →
        ∃ ch', (coro_bus_try_broadcast busBcastDemo 7).2.1.getCh i = some ch' ∧
          ch'.size = ch.size + 1 ∧
          ch'.head = ch.head ∧
          ch'.size_limit = ch.size_limit ∧
          ch'.data.getD ((ch.head + ch.size) % ch.size_limit) 0 = 7 ∧
          Event.wakeFirstRecv i ∈ (coro_bus_try_broadcast busBcastDemo 7).2.2.2) ∧
    ((coro_bus_try_broadcast busBcastDemo 7).1 ≠ 0 →
      (coro_bus_try_broadcast busBcastDemo 7).2.1 = busBcastDemo)) :=
  ⟨by decide, by decide, C1_broadcast_atomic busBcastDemo 7 (by decide) (by decide)⟩

/-! ### Descriptor allocation -/

theorem setCh_getCh_self {bus : Bus} {i : Nat} (h : i < bus.channels.length)
    (c : Option Channel) : (bus.setCh i c).getCh i = c := by
  unfold Bus.setCh Bus.getCh
  rw [List.getD_eq_getElem?_getD, List.getElem?_set_self (by simpa using h)]
  rfl

theorem setCh_getCh_ne (bus : Bus) (i j : Nat) (h : i ≠ j) (c : Option Channel) :
    (bus.setCh i c).getCh j = bus.getCh j := by
  unfold Bus.setCh Bus.getCh
  rw [List.getD_eq_getElem?_getD, List.getD_eq_getElem?_getD, List.getElem?_set_ne h]

theorem all_isSome_openScan : ∀ {l : List (Option Channel)},
    (∀ oc ∈ l, oc.isSome) → openScan l = none := by
  intro l
  induction l with
  | nil => intro _; rfl
  | cons hd tl ih =>
    intro h
    cases hd with
    | none => cases h none (by simp)
    | some c =>
      rw [openScan, ih fun oc hm => h oc (List.mem_cons_of_mem _ hm)]
      rfl

theorem openScan_none_isSome : ∀ {l : List (Option Channel)}, openScan l = none →
    ∀ oc ∈ l, oc.isSome := by
  intro l
  induction l with
  | nil => intro _ oc hm; cases hm
  | cons hd tl ih =>
    intro h oc hm
    cases hd with
    | none => rw [openScan] at h; cases h
    | some c =>
      rw [openScan] at h
      rcases List.mem_cons.1 hm with rfl | hm'
      · rfl
      · cases hsc : openScan tl with
        | none => exact ih hsc oc hm'
        | some m => rw [hsc] at h; cases h

theorem openScan_some_spec : ∀ {l : List (Option Channel)} {i : Nat},
    openScan l = some i →
    i < l.length ∧ l.getD i none = none ∧ ∀ j < i, (l.getD j none).isSome := by
  intro l
  induction l with
  | nil => intro i h; cases h
  | cons hd tl ih =>
    intro i h
    cases hd with
    | none =>
      rw [openScan] at h
      cases h
      exact ⟨by simp, rfl, fun j hj => absurd hj (Nat.not_lt_zero j)⟩
    | some c =>
      rw [openScan] at h
      cases hsc : openScan tl with
      | none => rw [hsc] at h; cases h
      | some m =>
        rw [hsc] at h
        cases h
        obtain ⟨h1, h2, h3⟩ := ih hsc
        refine ⟨by simp; omega, by simpa using h2, ?_⟩
        intro j hj
        cases j with
        | zero => rfl
        | succ jm =>
          rw [List.getD_cons_succ]
          refine h3 jm ?_
          have hj' : jm + 1 < m + 1 := by simpa using hj
          omega

theorem openScan_eq_some : ∀ {l : List (Option Channel)} {i : Nat},
    i < l.length → l.getD i none = none → (∀ j < i, (l.getD j none).isSome) →
    openScan l = some i := by
  intro l
  induction l with
  | nil => intro i hi; cases hi
  | cons hd tl ih =>
    intro i hi hnone hall
    cases i with
    | zero =>
      rw [List.getD_cons_zero] at hnone
      subst hnone
      rfl
    | succ m =>
      have h0 : hd.isSome := by
        have := hall 0 (Nat.succ_pos m)
        simpa using this
      cases hd with
      | none => cases h0
      | some c =>
        rw [openScan, ih (by simpa using Nat.lt_of_succ_lt_succ hi)
          (by simpa using hnone)
          (fun j hj => by
            have := hall (j + 1) (by omega)
            simpa using this)]
        rfl

/-- Specification of `coro_bus_channel_open`: nonnegative descriptor, all
lower slots used, the chosen slot previously free, the new channel installed
there, and other slots untouched. -/
theorem open_spec (bus : Bus) (limit : Nat) :
    0 ≤ (coro_bus_channel_open bus limit).1 ∧
    (coro_bus_channel_open bus limit).1.toNat ≤ bus.channels.length ∧
    (∀ j < (coro_bus_channel_open bus limit).1.toNat, (bus.getCh j).isSome) ∧
    bus.getCh (coro_bus_channel_open bus limit).1.toNat = none ∧
    (coro_bus_channel_open bus limit).2.1.getCh
      (coro_bus_channel_open bus limit).1.toNat = some (channel_init limit) ∧
    (∀ j, j ≠ (coro_bus_channel_open bus limit).1.toNat →
      (coro_bus_channel_open bus limit).2.1.getCh j = bus.getCh j) := by
  unfold coro_bus_channel_open
  cases hsc : openScan bus.channels with
  | some i =>
    obtain ⟨h1, h2, h3⟩ := openScan_some_spec hsc
    simp only [Int.toNat_natCast]
    refine ⟨by positivity, Nat.le_of_lt h1, h3, h2, setCh_getCh_self h1 _, ?_⟩
    intro j hj
    exact setCh_getCh_ne bus i j (fun he => hj he.symm) _
  | none =>
    have hall := openScan_none_isSome hsc
    simp only [Int.toNat_natCast]
    refine ⟨by positivity, Nat.le_refl _, ?_, ?_, ?_, ?_⟩
    · intro j hj
      show (bus.channels.getD j none).isSome
      rw [List.getD_eq_getElem?_getD, List.getElem?_eq_getElem hj]
      exact hall _ (List.getElem_mem hj)
    · show bus.channels.getD bus.channels.length none = none
      rw [List.getD_eq_getElem?_getD, List.getElem?_eq_none (Nat.le_refl _)]
      rfl
    · show (bus.channels ++ [some (channel_init limit)]).getD bus.channels.length none =
        some (channel_init limit)
      rw [List.getD_eq_getElem?_getD, List.getElem?_concat_length]
      rfl
    · intro j hj
      show (bus.channels ++ [some (channel_init limit)]).getD j none =
        bus.channels.getD j none
      rcases Nat.lt_or_ge j bus.channels.length with hlt | hge
      · rw [List.getD_eq_getElem?_getD, List.getD_eq_getElem?_getD,
          List.getElem?_append_left hlt]
      · have hgt : bus.channels.length < j := Nat.lt_of_le_of_ne hge (fun he => hj he.symm)
        rw [List.getD_eq_getElem?_getD, List.getD_eq_getElem?_getD,
          List.getElem?_eq_none (by simpa using hgt),
          List.getElem?_eq_none (Nat.le_of_lt hgt)]

/-- Effect of `coro_bus_channel_close` on the slot array for a valid open
descriptor: the slot is cleared and nothing else changes. -/
theorem close_bus_eq {bus : Bus} {errno0 : CoroBusError} {d : Nat} {ch : Channel}
    (hch : bus.getCh d = some ch) :
    (coro_bus_channel_close bus errno0 (d : Int)).1 = bus.setCh d none := by
  have hd := getCh_lt_length hch
  unfold coro_bus_channel_close
  rw [if_neg]
  · simp only [Int.toNat_natCast, hch]
  · push_neg
    exact ⟨by positivity, by exact_mod_cast hd⟩

/-- Successive opens: run `channel_open` once per capacity in the list and
collect the returned descriptors. -/
def openRun : List Nat → Bus → List Int
  | [], _ => []
  | lim :: rest, bus =>
    let r := coro_bus_channel_open bus lim
    r.1 :: openRun rest r.2.1

theorem openRun_full (lims : List Nat) : ∀ (bus : Bus),
    (∀ oc ∈ bus.channels, oc.isSome) →
    openRun lims bus =
      (List.range lims.length).map (fun k => ((bus.channels.length + k : Nat) : Int)) := by
  induction lims with
  | nil => intro bus _; rfl
  | cons lim rest ih =>
    intro bus hall
    rw [openRun]
    have hsc : openScan bus.channels = none := all_isSome_openScan hall
    have hbus' : (coro_bus_channel_open bus lim).2.1 =
        ⟨bus.channels ++ [some (channel_init lim)]⟩ := by
      unfold coro_bus_channel_open
      rw [hsc]
    have hd : (coro_bus_channel_open bus lim).1 = (bus.channels.length : Int) := by
      unfold coro_bus_channel_open
      rw [hsc]
    have hall' : ∀ oc ∈ (coro_bus_channel_open bus lim).2.1.channels, oc.isSome := by
      rw [hbus']
      intro oc hm
      rcases List.mem_append.1 hm with hm' | hm'
      · exact hall oc hm'
      · simp at hm'
        subst hm'
        rfl
    have hlen' : (coro_bus_channel_open bus lim).2.1.channels.length =
        bus.channels.length + 1 := by
      rw [hbus']
      simp
    rw [ih _ hall', hd]
    simp only [hlen', List.length_cons]
    rw [List.range_succ_eq_map, List.map_cons, List.map_map, Nat.add_zero]
    congr 1
    apply List.map_congr_left
    intro k hk
    simp only [Function.comp_apply]
    push_cast
    omega

theorem open_fst_of_scan {bus : Bus} {limit i : Nat}
    (h : openScan bus.channels = some i) :
    (coro_bus_channel_open bus limit).1 = (i : Int) := by
  unfold coro_bus_channel_open
  rw [h]

/-- C6: `channel_open` returns the lowest-index free slot, growing the slot
array only when none is free: the descriptor is nonnegative and at most the
old slot count, every lower slot is in use, the chosen slot was free, and
the new channel is installed there; opening N channels on a fresh bus
returns descriptors 0..N-1; and open, close, open on an otherwise idle bus
returns the same descriptor. -/
theorem C6_lowest_slot :
    (∀ (bus : Bus) (limit : Nat),
      0 ≤ (coro_bus_channel_open bus limit).1 ∧
      (coro_bus_channel_open bus limit).1.toNat ≤ bus.channels.length ∧
      (∀ j < (coro_bus_channel_open bus limit).1.toNat, (bus.getCh j).isSome) ∧
      bus.getCh (coro_bus_channel_open bus limit).1.toNat = none ∧
      (coro_bus_channel_open bus limit).2.1.getCh
        (coro_bus_channel_open bus limit).1.toNat = some (channel_init limit)) ∧
    (∀ lims : List Nat,
      openRun lims ⟨[]⟩ = (List.range lims.length).map Int.ofNat) ∧
    (∀ (bus : Bus) (errno0 : CoroBusError) (lim1 lim2 : Nat),
      (coro_bus_channel_open
        (coro_bus_channel_close (coro_bus_channel_open bus lim1).2.1 errno0
          (coro_bus_channel_open bus lim1).1).1 lim2).1 =
      (coro_bus_channel_open bus lim1).1) := by
  refine ⟨?_, ?_, ?_⟩
  · intro bus limit
    obtain ⟨h1, h2, h3, h4, h5, _⟩ := open_spec bus limit
    exact ⟨h1, h2, h3, h4, h5⟩
  · intro lims
    have h := openRun_full lims ⟨[]⟩ (by intro oc hm; cases hm)
    simpa only [List.length_nil, Nat.zero_add] using h
  · intro bus errno0 lim1 lim2
    obtain ⟨h1, _, h3, _, h5, h6⟩ := open_spec bus lim1
    have hdInt : (((coro_bus_channel_open bus lim1).1.toNat : Nat) : Int) =
        (coro_bus_channel_open bus lim1).1 := Int.toNat_of_nonneg h1
    have hclose : (coro_bus_channel_close (coro_bus_channel_open bus lim1).2.1 errno0
        (coro_bus_channel_open bus lim1).1).1 =
        (coro_bus_channel_open bus lim1).2.1.setCh
          (coro_bus_channel_open bus lim1).1.toNat none := by
      rw [← hdInt]
      exact close_bus_eq h5
    rw [hclose]
    have hdlt : (coro_bus_channel_open bus lim1).1.toNat <
        (coro_bus_channel_open bus lim1).2.1.channels.length := getCh_lt_length h5
    have hscan : openScan ((coro_bus_channel_open bus lim1).2.1.setCh
        (coro_bus_channel_open bus lim1).1.toNat none).channels =
        some (coro_bus_channel_open bus lim1).1.toNat := by
      apply openScan_eq_some
      · show _ < ((coro_bus_channel_open bus lim1).2.1.setCh _ none).channels.length
        simpa [Bus.setCh] using hdlt
      · exact setCh_getCh_self hdlt none
      · intro j hj
        show (((coro_bus_channel_open bus lim1).2.1.setCh
          (coro_bus_channel_open bus lim1).1.toNat none).getCh j).isSome
        rw [setCh_getCh_ne _ _ _ (by omega) none, h6 j (by omega)]
        exact h3 j hj
    rw [open_fst_of_scan hscan]
    exact hdInt

/-- Demo bus for C6: slots used, free, used — open must pick slot 1. -/
def busOpenDemo : Bus := ⟨[some (channel_init 1), none, some (channel_init 2)]⟩

theorem C6_witness :
    (0 ≤ (coro_bus_channel_open busOpenDemo 3).1 ∧
      (coro_bus_channel_open busOpenDemo 3).1.toNat ≤ busOpenDemo.channels.length ∧
      (∀ j < (coro_bus_channel_open busOpenDemo 3).1.toNat, (busOpenDemo.getCh j).isSome) ∧
      busOpenDemo.getCh (coro_bus_channel_open busOpenDemo 3).1.toNat = none ∧
      (coro_bus_channel_open busOpenDemo 3).2.1.getCh
        (coro_bus_channel_open busOpenDemo 3).1.toNat = some (channel_init 3)) ∧
    openRun [5, 5] ⟨[]⟩ = (List.range ([5, 5] : List Nat).length).map Int.ofNat ∧
    (coro_bus_channel_open
      (coro_bus_channel_close (coro_bus_channel_open busOpenDemo 3).2.1 errNone
        (coro_bus_channel_open busOpenDemo 3).1).1 4).1 =
      (coro_bus_channel_open busOpenDemo 3).1 :=
  ⟨C6_lowest_slot.1 busOpenDemo 3, C6_lowest_slot.2.1 [5, 5],
    C6_lowest_slot.2.2 busOpenDemo errNone 3 4⟩

/-! ### Vectorised send -/

theorem fillRing_contents {limit head : Nat} :
    ∀ (ws data : List Nat) (size : Nat), data.length = limit →
      size + ws.length ≤ limit →
      (fillRing limit head data size ws).1.length = limit ∧
      contentsOf (fillRing limit head data size ws).1 limit head
          (fillRing limit head data size ws).2 =
        contentsOf data limit head size ++ ws := by
  intro ws
  induction ws with
  | nil =>
    intro data size hlen _
    exact ⟨hlen, by simp [fillRing]⟩
  | cons w t ih =>
    intro data size hlen hle
    rw [fillRing]
    have hsz : size < limit := by
      simp only [List.length_cons] at hle
      omega
    have hlen' : (data.set ((head + size) % limit) w).length = limit := by
      simp [hlen]
    have hle' : size + 1 + t.length ≤ limit := by
      simp only [List.length_cons] at hle
      omega
    obtain ⟨hl, hc⟩ := ih _ (size + 1) hlen' hle'
    refine ⟨hl, ?_⟩
    rw [hc, contentsOf_snoc w hlen hsz]
    simp

/-- C7, counterexample: `try_send_v` with `count = 0` on an open channel
that is not full returns 0, not an integer at least 1. -/
theorem C7_counterexample :
    busErrDemo.getCh 0 = some (channel_init 1) ∧
    (channel_init 1).size ≠ (channel_init 1).size_limit ∧
    (coro_bus_try_send_v busErrDemo 0 []).1 = 0 ∧
    ¬(1 ≤ (coro_bus_try_send_v busErrDemo 0 []).1) ∧
    (coro_bus_try_send_v busErrDemo 0 []).2.2.2 = [] := by
  decide

/-- C7 (amended): `try_send_v` on an open channel that is not full copies
`min count (capacity - size)` words into the ring (appending them to the
logical message sequence), wakes a receiver exactly when at least one word
was written, and returns the number of words written — which is at least 1
whenever `count` is at least 1, but 0 when `count = 0`. -/
theorem C7_send_v_partial (bus : Bus) (d : Nat) (ch : Channel) (ws : List Nat)
    (hch : bus.getCh d = some ch) (hinv : chInv ch) (hwf : chWf ch)
    (hne : ch.size ≠ ch.size_limit) :
    (coro_bus_try_send_v bus (d : Int) ws).1 =
      ((min ws.length (ch.size_limit - ch.size) : Nat) : Int) ∧
    (1 ≤ ws.length → 1 ≤ (coro_bus_try_send_v bus (d : Int) ws).1) ∧
    (coro_bus_try_send_v bus (d : Int) ws).2.2.2 =
      (if 0 < min ws.length (ch.size_limit - ch.size) then
        [Event.wakeFirstRecv d] else []) ∧
    (∃ ch', (coro_bus_try_send_v bus (d : Int) ws).2.1.getCh d = some ch' ∧
      ch'.size = ch.size + min ws.length (ch.size_limit - ch.size) ∧
      ch'.head = ch.head ∧ ch'.size_limit = ch.size_limit ∧
      ch'.contents =
        ch.contents ++ ws.take (min ws.length (ch.size_limit - ch.size))) := by
  have hd := getCh_lt_length hch
  have hsz : ch.size < ch.size_limit := Nat.lt_of_le_of_ne hinv.1 hne
  have heq : coro_bus_try_send_v bus (d : Int) ws =
      (((min ws.length (ch.size_limit - ch.size) : Nat) : Int),
        bus.setCh d (some { ch with
          data := (fillRing ch.size_limit ch.head ch.data ch.size
            (ws.take (min ws.length (ch.size_limit - ch.size)))).1,
          size := (fillRing ch.size_limit ch.head ch.data ch.size
            (ws.take (min ws.length (ch.size_limit - ch.size)))).2 }),
        errNone,
        if 0 < min ws.length (ch.size_limit - ch.size) then
          [Event.wakeFirstRecv d] else []) := by
    unfold coro_bus_try_send_v
    rw [lookup_natCast hd, hch]
    simp [hne]
  have htake : (ws.take (min ws.length (ch.size_limit - ch.size))).length =
      min ws.length (ch.size_limit - ch.size) := by
    rw [List.length_take]
    omega
  refine ⟨by rw [heq], ?_, by rw [heq], ?_⟩
  · intro hws
    rw [heq]
    show (1 : Int) ≤ ((min ws.length (ch.size_limit - ch.size) : Nat) : Int)
    have h1 : 1 ≤ min ws.length (ch.size_limit - ch.size) := by omega
    exact_mod_cast h1
  · obtain ⟨hl, hc⟩ := fillRing_contents
      (ws.take (min ws.length (ch.size_limit - ch.size))) ch.data ch.size hwf
      (by rw [htake]; omega)
    refine ⟨{ ch with
        data := (fillRing ch.size_limit ch.head ch.data ch.size
          (ws.take (min ws.length (ch.size_limit - ch.size)))).1,
        size := (fillRing ch.size_limit ch.head ch.data ch.size
          (ws.take (min ws.length (ch.size_limit - ch.size)))).2 },
      ?_, ?_, rfl, rfl, ?_⟩
    · rw [heq]
      show (bus.setCh d _).getCh d = _
      exact setCh_getCh_self hd _
    · show (fillRing ch.size_limit ch.head ch.data ch.size
        (ws.take (min ws.length (ch.size_limit - ch.size)))).2 = _
      rw [fillRing_size, htake]
    · show contentsOf (fillRing ch.size_limit ch.head ch.data ch.size
        (ws.take (min ws.length (ch.size_limit - ch.size)))).1 ch.size_limit ch.head
        (fillRing ch.size_limit ch.head ch.data ch.size
          (ws.take (min ws.length (ch.size_limit - ch.size)))).2 = _
      exact hc

/-- Witness for C7 (amended): capacity 1, empty channel, two words offered,
one written. -/
theorem C7_send_v_partial_witness :
    (coro_bus_try_send_v busErrDemo ((0 : Nat) : Int) [3, 4]).1 = 1 ∧
    (coro_bus_try_send_v busErrDemo ((0 : Nat) : Int) [3, 4]).2.2.2 =
      [Event.wakeFirstRecv 0] ∧
    (∃ ch', (coro_bus_try_send_v busErrDemo ((0 : Nat) : Int) [3, 4]).2.1.getCh 0 =
        some ch' ∧
      ch'.size = 1 ∧ ch'.contents = [3]) := by
  have h := C7_send_v_partial busErrDemo 0 (channel_init 1) [3, 4]
    (by decide) (by decide) (by decide) (by decide)
  obtain ⟨h1, _, h3, ch', hg, hs, _, _, hc⟩ := h
  refine ⟨by rw [h1]; decide, by rw [h3]; decide, ch', hg, by rw [hs]; decide,
    by rw [hc]; decide⟩

end Corobus
